import Mathlib

/-!
Verification of the svcspektrum database-merge engine

A shallow embedding of `svcspektrum/management/commands/merge_databases.py`
and `svcspektrum/models.py`: the persistent identity-map store
(`PersistentIdsMap` over the `ImportedIdsMap` table), the generic
skip-if-mapped merge loop shared by the persistent-map entity types,
username resolution (`ensure_unique_username`), the user field-promotion
block of `merge_users`, natural-key deduplication (`merge_departments`,
`merge_users`), folder/file owner resolution, the discount merger, the
source-repair steps (`fix_broken_files`, `fix_activities`) and the
per-phase transaction wrapper (`perform_operation`).

Django dictionaries `dict[int, int]` are modelled as association lists
`List (Nat × Nat)` with first-match lookup (keys are inserted at most
once, mirroring dict semantics); database tables are lists of rows; an
aborting exception is `Option`/`Except` failure.
-/

set_option maxRecDepth 8192

/-- One row of the `ImportedIdsMap` table (`svcspektrum/models.py`):
`model_name`, `connection`, `foreign_id`, `local_id`, unique together on
`(connection, model_name, foreign_id)`. -/
structure MapEntry where
  model_name : String
  connection : String
  foreign_id : Nat
  local_id : Nat
deriving DecidableEq, Repr

/-- In-memory per-connection identity map `dict[int, int]`
(foreign id to local id). -/
abbrev IdsMap := List (Nat × Nat)

/-- The unique key `(connection, model_name, foreign_id)` of a table row. -/
def tripleOf (e : MapEntry) : String × String × Nat :=
  (e.connection, e.model_name, e.foreign_id)

/-- Whether the table already stores a row with the given unique triple. -/
def hasTriple (table : List MapEntry) (conn modelName : String) (fid : Nat) : Bool :=
  table.any fun x => x.connection == conn && x.model_name == modelName && x.foreign_id == fid

/-- `bulk_create(..., ignore_conflicts=True)` semantics for a single row:
the insert is ignored when a row with the same unique triple exists. -/
def tableInsertIgnore (table : List MapEntry) (e : MapEntry) : List MapEntry :=
  if hasTriple table e.connection e.model_name e.foreign_id then table else table ++ [e]

/-- `PersistentIdsMap.__init__` for a single connection: read the stored
`(foreign_id, local_id)` pairs for `(model_name, connection)`. -/
def loadIdsMap (table : List MapEntry) (modelName conn : String) : IdsMap :=
  (table.filter fun e => e.model_name == modelName && e.connection == conn).map
    fun e => (e.foreign_id, e.local_id)

/-- `PersistentIdsMap.save` for a single connection: bulk insert every
in-memory pair, ignoring conflicts on the unique triple. -/
def saveIdsMap (modelName conn : String) (m : IdsMap) (table : List MapEntry) : List MapEntry :=
  m.foldl (fun t p => tableInsertIgnore t ⟨modelName, conn, p.1, p.2⟩) table

/-- The first stored `local_id` for a given unique triple. -/
def findTriple (table : List MapEntry) (conn modelName : String) (fid : Nat) : Option Nat :=
  (table.find? fun x =>
    x.connection == conn && x.model_name == modelName && x.foreign_id == fid).map (·.local_id)

/-- The stored table has at most one row per unique triple
(the `unique_together` constraint of `ImportedIdsMap`). -/
def UniqueTriples (table : List MapEntry) : Prop :=
  (table.map tripleOf).Nodup

instance : DecidablePred UniqueTriples := fun table =>
  inferInstanceAs (Decidable ((table.map tripleOf).Nodup))

/-- Python `str.lower()`: character-wise lowering (structural, so that
concrete instances evaluate). -/
def lower (s : String) : String := ⟨s.data.map Char.toLower⟩

/-! ## Username resolution (`ensure_unique_username`) -/

/-- `email.split("@")[0]`. -/
def localPart (email : String) : String := (email.splitOn "@").headI

/-- One candidate of the random tier: `f"{username[:100]}-{uuid4().hex[:3]}"`,
with `gen n` standing for the `n`-th drawn `uuid4().hex[:3]`. -/
def randomCandidate (username : String) (gen : Nat → String) (n : Nat) : String :=
  username.take 100 ++ "-" ++ gen n

/-- `ensure_unique_username`: try the requested username, the local part of
the email, the full email, then random-suffixed candidates until one is
free (the `while` loop, modelled as the first fresh candidate of the
stream; `h` is the termination guarantee).  The boolean records whether
`logger.warning` ran, which happens exactly on the random tier. -/
def ensure_unique_username (username email : String) (usernames : List String)
    (gen : Nat → String) (h : ∃ n, randomCandidate username gen n ∉ usernames) :
    String × Bool :=
  if username ∉ usernames then (username, false)
  else if localPart email ∉ usernames then (localPart email, false)
  else if email ∉ usernames then (email, false)
  else (randomCandidate username gen (Nat.find h), true)

/-! ## Users (`merge_users`) -/

/-- The fields of a user record read and written by `merge_users`
(`date_joined` modelled as a numeric timestamp). -/
structure MUser where
  id : Nat
  username : String
  email : String
  first_name : String
  last_name : String
  is_active : Bool
  is_staff : Bool
  is_superuser : Bool
  date_joined : Nat
deriving DecidableEq, Repr

/-- The field-promotion block of `merge_users` (the chain of `if`
statements guarded by `local_user_updated`): fill empty name fields from
the source, raise the three flags if the source has them, keep the
earliest `date_joined`.  Returns the updated local user and the
`local_user_updated` flag. -/
def update_local_user (fu lu : MUser) : MUser × Bool :=
  let r1 : MUser × Bool :=
    if fu.first_name ≠ "" ∧ lu.first_name = "" then
      ({ lu with first_name := fu.first_name }, true)
    else (lu, false)
  let r2 : MUser × Bool :=
    if fu.last_name ≠ "" ∧ r1.1.last_name = "" then
      ({ r1.1 with last_name := fu.last_name }, true)
    else r1
  let r3 : MUser × Bool :=
    if fu.is_active ∧ ¬ r2.1.is_active then ({ r2.1 with is_active := true }, true) else r2
  let r4 : MUser × Bool :=
    if fu.is_staff ∧ ¬ r3.1.is_staff then ({ r3.1 with is_staff := true }, true) else r3
  let r5 : MUser × Bool :=
    if fu.is_superuser ∧ ¬ r4.1.is_superuser then
      ({ r4.1 with is_superuser := true }, true)
    else r4
  if fu.date_joined < r5.1.date_joined then
    ({ r5.1 with date_joined := fu.date_joined }, true)
  else r5

/-! ## The generic persistent-map merge loop

The ten entity types merged through a `PersistentIdsMap` (activities,
activity variants, calendar events, registrations, discounts,
transactions, timesheets, timesheet entries, journals, journal entries)
share one shape (`merge_activities`, `merge_registrations`, ...): load
the map, then for every connection and every source record, skip the
record if its id is already mapped, otherwise resolve its foreign keys
(raising on an identity-map miss), insert the target row, record the
mapping, and persist the map at the end of the phase.  `α` is the source
record type, `β` the resolved target payload, and `resolve` the
per-record transform (`copy` plus foreign-key remapping); a `resolve`
result of `none` is a raised `KeyError`, aborting the phase. -/

/-- The per-connection in-flight state: this connection's identity map,
the target table rows `(pk, payload)`, and the next auto-increment pk. -/
structure ConnState (β : Type) where
  idsMap : IdsMap
  rows : List (Nat × β)
  nextId : Nat
deriving Repr, DecidableEq

/-- One iteration of the per-record loop of any persistent-map merger:
`if foreign.id in map[connection]: continue`, else resolve, `save`, and
record the new mapping. -/
def processRecord (recId : α → Nat) (resolve : String → α → Option β) (conn : String)
    (s : ConnState β) (rec : α) : Option (ConnState β) :=
  if (s.idsMap.lookup (recId rec)).isSome then some s
  else
    match resolve conn rec with
    | none => none
    | some b =>
      some ⟨s.idsMap ++ [(recId rec, s.nextId)], s.rows ++ [(s.nextId, b)], s.nextId + 1⟩

/-- The per-connection record loop. -/
def runConnection (recId : α → Nat) (resolve : String → α → Option β) (conn : String) :
    List α → ConnState β → Option (ConnState β)
  | [], s => some s
  | rec :: recs, s =>
    match processRecord recId resolve conn s rec with
    | none => none
    | some s1 => runConnection recId resolve conn recs s1

/-- The connection loop: each connection starts from its map loaded from
the table as it stood at the beginning of the phase (the maps are all
loaded by `PersistentIdsMap.__init__` before any record is processed, and
the table is only written at the end of the phase), while rows and the
auto-increment pk thread through.  Accumulates the final per-connection
maps for the closing `save`. -/
def runConnections (modelName : String) (recId : α → Nat) (resolve : String → α → Option β)
    (sources : String → List α) (table0 : List MapEntry) :
    List String → List (String × IdsMap) → List (Nat × β) → Nat →
    Option (List (String × IdsMap) × List (Nat × β) × Nat)
  | [], maps, rows, nid => some (maps, rows, nid)
  | c :: cs, maps, rows, nid =>
    match runConnection recId resolve c (sources c) ⟨loadIdsMap table0 modelName c, rows, nid⟩ with
    | none => none
    | some s =>
      runConnections modelName recId resolve sources table0 cs
        (maps ++ [(c, s.idsMap)]) s.rows s.nextId

/-- `PersistentIdsMap.save`: persist every connection's map. -/
def saveAll (modelName : String) (maps : List (String × IdsMap)) (table : List MapEntry) :
    List MapEntry :=
  maps.foldl (fun t cm => saveIdsMap modelName cm.1 cm.2 t) table

/-- The target-database state a persistent-map phase touches: the
`ImportedIdsMap` table, the entity's target table, and its next pk. -/
structure PhaseState (β : Type) where
  table : List MapEntry
  rows : List (Nat × β)
  nextId : Nat
deriving Repr, DecidableEq

/-- A whole persistent-map merge phase: load the maps, run the record
loops over every connection, persist the maps. -/
def runPhase (modelName : String) (recId : α → Nat) (resolve : String → α → Option β)
    (connections : List String) (sources : String → List α) (st : PhaseState β) :
    Option (PhaseState β) :=
  match runConnections modelName recId resolve sources st.table connections [] st.rows st.nextId with
  | none => none
  | some (maps, rows, nid) => some ⟨saveAll modelName maps st.table, rows, nid⟩

/-! ## Natural-key deduplication -/

/-- Insert `fid -> lid` into the map of the given connection
(`self.xxx_ids_map[connection][foreign.id] = local_id`; the maps are
initialised by `get_ids_map` with one empty dict per connection). -/
def mapInsert (maps : List (String × IdsMap)) (conn : String) (fid lid : Nat) :
    List (String × IdsMap) :=
  maps.map fun cm => if cm.1 == conn then (cm.1, cm.2 ++ [(fid, lid)]) else cm

/-- Look up `maps[conn][fid]`. -/
def mapsLookup (maps : List (String × IdsMap)) (conn : String) (fid : Nat) : Option Nat :=
  (maps.lookup conn).bind fun m => m.lookup fid

/-- A department record: pk and the natural key `name`. -/
structure MDepartment where
  id : Nat
  name : String
deriving DecidableEq, Repr

/-- The state threaded through `merge_departments`: the
`existing_departments` name-to-id dict, the target table, the transient
maps and the next pk. -/
structure DeptState where
  existing : List (String × Nat)
  rows : List MDepartment
  maps : List (String × IdsMap)
  nextId : Nat
deriving DecidableEq, Repr

/-- The body of the `merge_departments` loop: reuse the target department
with the same name if one exists, otherwise `save(copy(...))` and extend
`existing_departments`; either way record the id mapping. -/
def merge_one_department (conn : String) (st : DeptState) (fd : MDepartment) : DeptState :=
  match st.existing.lookup fd.name with
  | some lid => { st with maps := mapInsert st.maps conn fd.id lid }
  | none =>
    { existing := st.existing ++ [(fd.name, st.nextId)]
      rows := st.rows ++ [⟨st.nextId, fd.name⟩]
      maps := mapInsert st.maps conn fd.id st.nextId
      nextId := st.nextId + 1 }

/-- `merge_departments`: build `existing_departments` from the target,
then fold the loop body over every connection's departments. -/
def merge_departments (connections : List String) (src : String → List MDepartment)
    (targetDepts : List MDepartment) (nextId : Nat) : DeptState :=
  let st0 : DeptState :=
    ⟨targetDepts.map fun d => (d.name, d.id), targetDepts,
      connections.map fun c => (c, ([] : IdsMap)), nextId⟩
  connections.foldl (fun st c => (src c).foldl (merge_one_department c) st) st0

/-- The state threaded through `merge_users`.  The target user table and
the `users_by_email` cache are represented together as an association
list keyed by lower-cased email (the `user_unique_email` app keeps
emails unique), matching the shared mutable `User` objects of the
source; `usernames` is the username set, `maps` is `user_ids_map`. -/
structure UsersState where
  usersByEmail : List (String × MUser)
  usernames : List String
  maps : List (String × IdsMap)
  nextId : Nat
deriving Repr

/-- Write an updated user back under its email key (`local_user.save()`
updating the stored row). -/
def setUserByEmail (l : List (String × MUser)) (email : String) (u : MUser) :
    List (String × MUser) :=
  l.map fun p => if p.1 == email then (p.1, u) else p

/-- The body of the `merge_users` loop: normalise the email, look the
user up by email; if absent, copy the source user with a collision-free
username and save it; then run the field-promotion block against the
(possibly just created) local user, store the result, and record the id
mapping.  `hgen` guarantees the random username tier terminates.
Group and permission assignment carries no identity information and is
omitted. -/
def merge_one_user (gen : Nat → String)
    (hgen : ∀ (un : String) (us : List String), ∃ n, randomCandidate un gen n ∉ us)
    (conn : String) (st : UsersState) (fu0 : MUser) : UsersState :=
  let fu : MUser := { fu0 with email := (lower fu0.email) }
  let created : UsersState × MUser :=
    match st.usersByEmail.lookup fu.email with
    | some lu => (st, lu)
    | none =>
      let uname := (ensure_unique_username fu.username fu.email st.usernames gen
        (hgen fu.username st.usernames)).1
      let lu : MUser := { fu with id := st.nextId, username := uname }
      ({ st with
          usersByEmail := st.usersByEmail ++ [(fu.email, lu)]
          usernames := st.usernames ++ [uname]
          nextId := st.nextId + 1 }, lu)
  let st1 := created.1
  let lu1 := (update_local_user fu created.2).1
  { st1 with
      usersByEmail := setUserByEmail st1.usersByEmail fu.email lu1
      maps := mapInsert st1.maps conn fu.id lu1.id }

/-- `merge_users`: build `users_by_email` and `usernames` from the target
users, then fold the loop body over every connection's users. -/
def merge_users (gen : Nat → String)
    (hgen : ∀ (un : String) (us : List String), ∃ n, randomCandidate un gen n ∉ us)
    (connections : List String) (src : String → List MUser)
    (targetUsers : List MUser) (nextId : Nat) : UsersState :=
  let st0 : UsersState :=
    ⟨targetUsers.map fun u => ((lower u.email), u), targetUsers.map (·.username),
      connections.map fun c => (c, ([] : IdsMap)), nextId⟩
  connections.foldl (fun st c => (src c).foldl (merge_one_user gen hgen c) st) st0

/-! ## Folders and files (`merge_folders`, `merge_files`) -/

/-- Python `dict.get` on an identity map applied to a possibly-`NULL`
foreign key: `user_ids_map[connection].get(x)` returns `None` both for a
`NULL` key and for a key with no mapping entry. -/
def dictGet (m : IdsMap) : Option Nat → Option Nat
  | none => none
  | some k => m.lookup k

/-- A source folder record (one node; `merge_folder` recurses over the
children applying the same step per node). -/
structure FFolder where
  id : Nat
  name : String
  owner_id : Option Nat
deriving DecidableEq, Repr

/-- A target folder row. -/
structure TFolder where
  id : Nat
  parent : Option Nat
  name : String
  owner_id : Option Nat
deriving DecidableEq, Repr

/-- `Folder.objects.using("default").get_or_create(parent=..., name=...,
defaults=dict(owner_id=..., ...))`: reuse the first folder with this
`(parent, name)` pair, otherwise create one with the defaults. -/
def getOrCreateFolder (folders : List TFolder) (parent : Option Nat) (name : String)
    (owner : Option Nat) (nextId : Nat) : TFolder × List TFolder × Nat :=
  match folders.find? fun f => f.parent == parent && f.name == name with
  | some f => (f, folders, nextId)
  | none =>
    let f : TFolder := ⟨nextId, parent, name, owner⟩
    (f, folders ++ [f], nextId + 1)

/-- One node of `merge_folders.merge_folder`: deduplicate by
`(parent, name)`; the `owner_id` default goes through
`user_ids_map[connection].get(...)`. -/
def merge_folder_node (userMap : IdsMap) (localParent : Option Nat) (ff : FFolder)
    (folders : List TFolder) (nextId : Nat) : TFolder × List TFolder × Nat :=
  getOrCreateFolder folders localParent ff.name (dictGet userMap ff.owner_id) nextId

/-- A source file record with the fields `merge_files` reads. -/
structure FFile where
  id : Nat
  folder_id : Option Nat
  sha1 : String
  owner_id : Option Nat
deriving DecidableEq, Repr

/-- A target file row. -/
structure TFile where
  id : Nat
  folder_id : Option Nat
  sha1 : String
  owner_id : Option Nat
deriving DecidableEq, Repr

/-- The state threaded through the file loop of `merge_files`:
`existing_file_ids` keyed by `(folder_id, sha1)`, the target rows,
`file_ids_map` for one connection, and the next pk. -/
structure FilesState where
  existingFileIds : List ((Option Nat × String) × Nat)
  rows : List TFile
  fileIdsMap : IdsMap
  nextId : Nat
deriving DecidableEq, Repr

/-- The body of the `merge_files` loop: remap `folder_id` through
`folder_ids_map[connection].get`, deduplicate on `(folder_id, sha1)`,
resolve `owner_id` through `user_ids_map[connection].get` when creating,
and map the source file id to the deduplicated target id. -/
def merge_one_file (userMap folderMap : IdsMap) (st : FilesState) (ff : FFile) : FilesState :=
  let folderId := dictGet folderMap ff.folder_id
  let key : Option Nat × String := (folderId, ff.sha1)
  match st.existingFileIds.lookup key with
  | some fid => { st with fileIdsMap := st.fileIdsMap ++ [(ff.id, fid)] }
  | none =>
    let row : TFile := ⟨st.nextId, folderId, ff.sha1, dictGet userMap ff.owner_id⟩
    { existingFileIds := st.existingFileIds ++ [(key, st.nextId)]
      rows := st.rows ++ [row]
      fileIdsMap := st.fileIdsMap ++ [(ff.id, st.nextId)]
      nextId := st.nextId + 1 }

/-! ## Activities (`merge_activities` record resolution) -/

/-- The discriminator and foreign keys of a source activity read by the
body of `merge_activities` (the per-variant scalar payload is untouched
by the remapping and omitted). -/
structure ForeignActivity where
  id : Nat
  activity_type_model : String
  school_year_id : Nat
  activity_type_id : Nat
  department_id : Option Nat
  place_id : Option Nat
deriving DecidableEq, Repr

/-- A resolved activity row. -/
structure ActivityRow where
  activity_type_model : String
  school_year_id : Nat
  activity_type_id : Nat
  department_id : Option Nat
  place_id : Option Nat
deriving DecidableEq, Repr

/-- `m[k]` on an identity map: a miss raises `KeyError`. -/
def indexLookup (m : IdsMap) (k : Nat) : Option Nat := m.lookup k

/-- The Python idiom `x and map[connection][x]` for a nullable foreign
key: `None` stays `None` without a lookup; a present key is indexed and
a miss raises. -/
def optIndexLookup (m : IdsMap) : Option Nat → Option (Option Nat)
  | none => some none
  | some k => (m.lookup k).map some

/-- The foreign-key resolution of one activity in `merge_activities`:
an unknown discriminator raises, `school_year_id` and
`activity_type_id` are indexed (a miss raises `KeyError`), and the
nullable `department_id`/`place_id` use `x and map[x]`. -/
def resolveActivity (schoolYearMap activityTypeMap departmentMap placeMap : String → IdsMap)
    (conn : String) (a : ForeignActivity) : Option ActivityRow :=
  if a.activity_type_model ∉ ["course", "event", "orderable"] then none
  else
    match indexLookup (schoolYearMap conn) a.school_year_id,
        indexLookup (activityTypeMap conn) a.activity_type_id,
        optIndexLookup (departmentMap conn) a.department_id,
        optIndexLookup (placeMap conn) a.place_id with
    | some sy, some at_, some dep, some pl =>
      some ⟨a.activity_type_model, sy, at_, dep, pl⟩
    | _, _, _, _ => none

/-! ## Discounts (`merge_discounts`) -/

/-- A source discount record with the fields `merge_discounts` reads
(`registration_period_id` exists only on course discounts; the
`getattr(..., "registration_period_id", 0)` default is modelled by an
optional field). -/
structure ForeignDiscount where
  id : Nat
  amount : Int
  registration_id : Nat
  registration_period_id : Option Nat
  accounted_by_id : Option Nat
  last_updated_by_id : Option Nat
deriving DecidableEq, Repr

/-- A merged discount row. -/
structure DiscountRow where
  id : Nat
  amount : Int
  registration_id : Nat
  registration_period_id : Nat
  accounted_by_id : Option Nat
  last_updated_by_id : Option Nat
deriving DecidableEq, Repr

/-- The per-variant in-flight state of `merge_discounts`. -/
structure DiscountState where
  idsMap : IdsMap
  rows : List DiscountRow
  nextId : Nat
deriving DecidableEq, Repr

/-- The body of the `merge_discounts` loop:
`if foreign_discount.id in discount_ids_map[connection] or
foreign_discount.amount == 0: continue`, otherwise copy, remap
`registration_id` (indexed; a miss raises) and the two nullable user
foreign keys, save, and record the mapping. -/
def merge_one_discount (regMap userMap : IdsMap) (s : DiscountState) (d : ForeignDiscount) :
    Option DiscountState :=
  if (s.idsMap.lookup d.id).isSome || d.amount == 0 then some s
  else
    match indexLookup regMap d.registration_id,
        optIndexLookup userMap d.accounted_by_id,
        optIndexLookup userMap d.last_updated_by_id with
    | some rid, some acc, some lub =>
      let row : DiscountRow :=
        ⟨s.nextId, d.amount, rid, d.registration_period_id.getD 0, acc, lub⟩
      some ⟨s.idsMap ++ [(d.id, s.nextId)], s.rows ++ [row], s.nextId + 1⟩
    | _, _, _ => none

/-! ## Source-repair steps (`fix_broken_files`, `fix_activities`) -/

/-- A file row of a source database as read by `fix_broken_files`. -/
structure SrcFile where
  id : Nat
  polymorphic_ctype_model : String
  file : String
deriving DecidableEq, Repr

/-- `fix_broken_files` for one source connection: two `.update(...)`
statements executed against the source database, rewriting the empty
`file` field of image rows and of plain file rows to placeholders. -/
def fix_broken_files_conn (files : List SrcFile) : List SrcFile :=
  let files1 := files.map fun f =>
    if f.polymorphic_ctype_model == "image" && f.file == "" then
      { f with file := "filer_dummy/placeholder.png" }
    else f
  files1.map fun f =>
    if f.polymorphic_ctype_model == "file" && f.file == "" then
      { f with file := "filer_dummy/placeholder.txt" }
    else f

/-- A source activity row as read by `fix_activities` for one of the
three concrete models: its pk and its `activity_type` foreign key. -/
structure SrcActivity where
  id : Nat
  activity_type_id : Nat
deriving DecidableEq, Repr

/-- `activity_type__model` of an activity given the source's activity
types `(id, model)`. -/
def activityTypeModel (activityTypes : List (Nat × String)) (tid : Nat) : Option String :=
  activityTypes.lookup tid

/-- `fix_activities` for one concrete model and one source connection:
records whose activity type's discriminator disagrees with the model are
updated in the source database to the first activity type with the
right discriminator (when none exists, `.first().id` raises). -/
def fix_activities_conn (activityTypes : List (Nat × String)) (activities : List SrcActivity)
    (m : String) : Option (List SrcActivity) :=
  let invalid := activities.filter fun a =>
    !(activityTypeModel activityTypes a.activity_type_id == some m)
  if invalid.length = 0 then some activities
  else
    match (activityTypes.filter fun t => t.2 == m).head? with
    | none => none
    | some t =>
      some (activities.map fun a =>
        if activityTypeModel activityTypes a.activity_type_id == some m then a
        else { a with activity_type_id := t.1 })

/-! ## The pipeline state and source read-only-ness -/

/-- The contents of one source database relevant to the modelled
phases. -/
structure SourceDB where
  files : List SrcFile
  activityTypes : List (Nat × String)
  activities : List SrcActivity
  departments : List MDepartment
deriving DecidableEq, Repr

/-- The run-wide state: every named source database plus the parts of the
target the modelled phases write. -/
structure Pipeline where
  sources : List (String × SourceDB)
  targetDepartments : List MDepartment
  deptMaps : List (String × IdsMap)
  nextDeptId : Nat
deriving DecidableEq, Repr

/-- The `fix_broken_files` phase over the whole pipeline: it rewrites
file rows inside every source database. -/
def fix_broken_files_phase (p : Pipeline) : Pipeline :=
  { p with
      sources := p.sources.map fun cs => (cs.1, { cs.2 with files := fix_broken_files_conn cs.2.files }) }

/-- The `merge_departments` phase over the whole pipeline: it reads the
sources and writes only the target side. -/
def merge_departments_phase (p : Pipeline) : Pipeline :=
  let st := merge_departments (p.sources.map (·.1))
    (fun c => ((p.sources.lookup c).map (·.departments)).getD []) p.targetDepartments p.nextDeptId
  { p with targetDepartments := st.rows, deptMaps := st.maps, nextDeptId := st.nextId }

/-! ## The orchestrator (`Command.handle`, `Command.perform_operation`) -/

/-- `perform_operation`: write the label, run the phase inside
`transaction.atomic()`, and report.  A raising phase has its writes
rolled back (the returned state is the entry state), the failure glyph
is printed, and the exception is re-raised unchanged; a successful phase
commits and prints the success glyph. -/
def perform_operation (label : String) (long : Bool) (f : St → Except E St) (s : St) :
    List String × St × Option E :=
  let firstWrite := label ++ " ... " ++ (if long then "\n" else " ")
  let resultPre := if long then label ++ " ... " else ""
  match f s with
  | .error e => ([firstWrite, resultPre ++ "❌"], s, some e)
  | .ok s1 => ([firstWrite, resultPre ++ "✅"], s1, none)

/-- The phase sequence of `Command.handle`: run each phase through
`perform_operation`; a failing phase stops the run with its exception,
keeping the states committed by the earlier phases. -/
def runPhases : List (String × Bool × (St → Except E St)) → St → List String × St × Option E
  | [], s => ([], s, none)
  | (label, long, f) :: rest, s =>
    match perform_operation label long f s with
    | (out, s1, some e) => (out, s1, some e)
    | (out, s1, none) =>
      let r := runPhases rest s1
      (out ++ r.1, r.2.1, r.2.2)

/-! ## Association-list and table lemmas -/

theorem lookup_append_of_isSome {l1 l2 : IdsMap} {k : Nat} (h : (l1.lookup k).isSome) :
    (l1 ++ l2).lookup k = l1.lookup k := by
  induction l1 with
  | nil => simp [List.lookup] at h
  | cons p t ih =>
    by_cases hk : k == p.1
    · simp [List.lookup, hk]
    · simp only [List.lookup, List.cons_append] at h ⊢
      rw [Bool.not_eq_true] at hk
      simp only [hk] at h ⊢
      exact ih h

theorem lookup_append_of_none {l1 l2 : IdsMap} {k : Nat} (h : l1.lookup k = none) :
    (l1 ++ l2).lookup k = l2.lookup k := by
  induction l1 with
  | nil => simp
  | cons p t ih =>
    by_cases hk : k == p.1
    · simp [List.lookup, hk] at h
    · rw [Bool.not_eq_true] at hk
      simp only [List.lookup, hk] at h
      simpa only [List.cons_append, List.lookup, hk] using ih h

theorem lookup_isSome_mem {l : IdsMap} {k : Nat} (h : (l.lookup k).isSome) :
    ∃ v, (k, v) ∈ l := by
  induction l with
  | nil => simp [List.lookup] at h
  | cons p t ih =>
    by_cases hk : k == p.1
    · have hk2 : k = p.1 := by simpa using hk
      refine ⟨p.2, ?_⟩
      rw [hk2]
      exact List.mem_cons_self _ _
    · rw [Bool.not_eq_true] at hk
      simp only [List.lookup, hk] at h
      obtain ⟨v, hv⟩ := ih h
      exact ⟨v, List.mem_cons_of_mem _ hv⟩

theorem hasTriple_append {t t2 : List MapEntry} {c mn : String} {f : Nat}
    (h : hasTriple t c mn f = true) : hasTriple (t ++ t2) c mn f = true := by
  unfold hasTriple at h ⊢
  rw [List.any_append, h, Bool.true_or]

theorem hasTriple_tableInsertIgnore {t : List MapEntry} {e : MapEntry} {c mn : String} {f : Nat}
    (h : hasTriple t c mn f = true) : hasTriple (tableInsertIgnore t e) c mn f = true := by
  unfold tableInsertIgnore
  split
  · exact h
  · exact hasTriple_append h

theorem hasTriple_insert_self (t : List MapEntry) (e : MapEntry) :
    hasTriple (tableInsertIgnore t e) e.connection e.model_name e.foreign_id = true := by
  unfold tableInsertIgnore
  split
  · assumption
  · unfold hasTriple
    rw [List.any_append]
    simp [List.any]

theorem hasTriple_saveIdsMap_mono {t : List MapEntry} {c mn : String} {f : Nat}
    (mn1 c1 : String) (m : IdsMap) (h : hasTriple t c mn f = true) :
    hasTriple (saveIdsMap mn1 c1 m t) c mn f = true := by
  induction m generalizing t with
  | nil => exact h
  | cons p m ih => exact ih (hasTriple_tableInsertIgnore h)

theorem saveIdsMap_has_keys {mn c : String} {m : IdsMap} {t : List MapEntry} {p : Nat × Nat}
    (hp : p ∈ m) : hasTriple (saveIdsMap mn c m t) c mn p.1 = true := by
  induction m generalizing t with
  | nil => cases hp
  | cons q m ih =>
    rcases List.mem_cons.mp hp with h | h
    · subst h
      exact hasTriple_saveIdsMap_mono mn c m (hasTriple_insert_self t ⟨mn, c, p.1, p.2⟩)
    · exact ih h

theorem saveAll1_mono {t : List MapEntry} {c mn : String} {f : Nat}
    (mn1 : String) (maps : List (String × IdsMap)) (h : hasTriple t c mn f = true) :
    hasTriple (saveAll mn1 maps t) c mn f = true := by
  induction maps generalizing t with
  | nil => exact h
  | cons cm maps ih => exact ih (hasTriple_saveIdsMap_mono mn1 cm.1 cm.2 h)

theorem saveAll_has_keys {mn : String} {maps : List (String × IdsMap)} {t : List MapEntry}
    {c : String} {m : IdsMap} {p : Nat × Nat} (hcm : (c, m) ∈ maps) (hp : p ∈ m) :
    hasTriple (saveAll mn maps t) c mn p.1 = true := by
  induction maps generalizing t with
  | nil => cases hcm
  | cons cm maps ih =>
    rcases List.mem_cons.mp hcm with h | h
    · rw [← h]
      exact saveAll1_mono mn maps (saveIdsMap_has_keys hp)
    · exact ih h

theorem loadIdsMap_lookup_isSome (t : List MapEntry) (mn c : String) (f : Nat) :
    ((loadIdsMap t mn c).lookup f).isSome = hasTriple t c mn f := by
  induction t with
  | nil => simp [loadIdsMap, hasTriple, List.lookup]
  | cons e t ih =>
    unfold loadIdsMap hasTriple at ih ⊢
    by_cases h1 : e.model_name = mn
    · by_cases h2 : e.connection = c
      · by_cases h3 : e.foreign_id = f
        · simp [List.filter_cons, h1, h2, h3, List.lookup]
        · have h3b : (f == e.foreign_id) = false := by
            simp only [beq_eq_false_iff_ne, ne_eq]
            exact fun hf => h3 hf.symm
          have h3c : (e.foreign_id == f) = false := by
            simp only [beq_eq_false_iff_ne, ne_eq]
            exact h3
          simp only [List.filter_cons, h1, h2, h3c, beq_self_eq_true, Bool.and_self,
            if_true, List.map_cons, List.lookup, h3b, List.any_cons, Bool.and_true,
            Bool.true_and, Bool.false_or]
          exact ih
      · have h2b : (e.connection == c) = false := by
          simp only [beq_eq_false_iff_ne, ne_eq]
          exact h2
        simp [List.filter_cons, h1, h2b, ih, hasTriple]
    · have h1b : (e.model_name == mn) = false := by
        simp only [beq_eq_false_iff_ne, ne_eq]
        exact h1
      simp [List.filter_cons, h1b, ih, hasTriple]

theorem loadIdsMap_mem_hasTriple {t : List MapEntry} {mn c : String} {p : Nat × Nat}
    (hp : p ∈ loadIdsMap t mn c) : hasTriple t c mn p.1 = true := by
  unfold loadIdsMap at hp
  obtain ⟨e, he, hpe⟩ := List.mem_map.mp hp
  obtain ⟨he1, he2⟩ := List.mem_filter.mp he
  unfold hasTriple
  rw [List.any_eq_true]
  refine ⟨e, he1, ?_⟩
  have h1 : e.model_name = mn := by
    have := (Bool.and_eq_true _ _).mp he2
    simpa using this.1
  have h2 : e.connection = c := by
    have := (Bool.and_eq_true _ _).mp he2
    simpa using this.2
  have h3 : e.foreign_id = p.1 := by rw [← hpe]
  simp [h1, h2, h3]

theorem tableInsertIgnore_of_hasTriple {t : List MapEntry} {e : MapEntry}
    (h : hasTriple t e.connection e.model_name e.foreign_id = true) :
    tableInsertIgnore t e = t := by
  unfold tableInsertIgnore
  rw [if_pos h]

theorem saveIdsMap_id_of_all_present {mn c : String} {m : IdsMap} {t : List MapEntry}
    (h : ∀ p ∈ m, hasTriple t c mn p.1 = true) : saveIdsMap mn c m t = t := by
  induction m with
  | nil => rfl
  | cons p m ih =>
    unfold saveIdsMap
    rw [List.foldl_cons]
    have hp : tableInsertIgnore t ⟨mn, c, p.1, p.2⟩ = t :=
      tableInsertIgnore_of_hasTriple (h p (List.mem_cons_self _ _))
    rw [hp]
    exact ih fun q hq => h q (List.mem_cons_of_mem _ hq)

theorem saveAll_id_of_all_present {mn : String} {maps : List (String × IdsMap)}
    {t : List MapEntry} (h : ∀ cm ∈ maps, ∀ p ∈ cm.2, hasTriple t cm.1 mn p.1 = true) :
    saveAll mn maps t = t := by
  induction maps with
  | nil => rfl
  | cons cm maps ih =>
    unfold saveAll
    rw [List.foldl_cons]
    have h1 : saveIdsMap mn cm.1 cm.2 t = t :=
      saveIdsMap_id_of_all_present (h cm (List.mem_cons_self _ _))
    rw [h1]
    exact ih fun q hq => h q (List.mem_cons_of_mem _ hq)

/-! ## Lemmas about the generic merge loop -/

theorem processRecord_skip {recId : α → Nat} {resolve : String → α → Option β} {conn : String}
    {s : ConnState β} {rec : α} (h : (s.idsMap.lookup (recId rec)).isSome) :
    processRecord recId resolve conn s rec = some s := by
  unfold processRecord
  rw [if_pos h]

theorem processRecord_extends {recId : α → Nat} {resolve : String → α → Option β}
    {conn : String} {s s1 : ConnState β} {rec : α}
    (h : processRecord recId resolve conn s rec = some s1) :
    ∃ ext, s1.idsMap = s.idsMap ++ ext := by
  unfold processRecord at h
  split at h
  · exact ⟨[], by simp [← Option.some.inj h]⟩
  · split at h
    · cases h
    · refine ⟨[(recId rec, s.nextId)], ?_⟩
      rw [← Option.some.inj h]

theorem processRecord_maps_rec {recId : α → Nat} {resolve : String → α → Option β}
    {conn : String} {s s1 : ConnState β} {rec : α}
    (h : processRecord recId resolve conn s rec = some s1) :
    (s1.idsMap.lookup (recId rec)).isSome = true := by
  unfold processRecord at h
  split at h
  · rw [← Option.some.inj h]
    assumption
  · split at h
    · cases h
    · rw [← Option.some.inj h]
      have hnone : s.idsMap.lookup (recId rec) = none := by
        rename_i hcond x b heq
        rw [Bool.not_eq_true] at hcond
        exact Option.not_isSome_iff_eq_none.mp (by simp [hcond])
      simp only [lookup_append_of_none hnone, List.lookup, beq_self_eq_true]
      rfl

theorem runConnection_extends {recId : α → Nat} {resolve : String → α → Option β}
    {conn : String} {recs : List α} {s s1 : ConnState β}
    (h : runConnection recId resolve conn recs s = some s1) :
    ∃ ext, s1.idsMap = s.idsMap ++ ext := by
  induction recs generalizing s with
  | nil =>
    refine ⟨[], ?_⟩
    unfold runConnection at h
    rw [← Option.some.inj h, List.append_nil]
  | cons rec recs ih =>
    unfold runConnection at h
    split at h
    · cases h
    · rename_i s2 hs2
      obtain ⟨e1, he1⟩ := processRecord_extends hs2
      obtain ⟨e2, he2⟩ := ih h
      exact ⟨e1 ++ e2, by rw [he2, he1, List.append_assoc]⟩

theorem runConnection_maps_all {recId : α → Nat} {resolve : String → α → Option β}
    {conn : String} {recs : List α} {s s1 : ConnState β}
    (h : runConnection recId resolve conn recs s = some s1) :
    ∀ rec ∈ recs, (s1.idsMap.lookup (recId rec)).isSome = true := by
  induction recs generalizing s with
  | nil => intro rec hrec; cases hrec
  | cons r recs ih =>
    unfold runConnection at h
    split at h
    · cases h
    · rename_i s2 hs2
      intro rec hrec
      rcases List.mem_cons.mp hrec with hr | hr
      · subst hr
        have h2 := processRecord_maps_rec hs2
        obtain ⟨ext, hext⟩ := runConnection_extends h
        rw [hext, lookup_append_of_isSome h2]
        exact h2
      · exact ih h rec hr

theorem runConnection_id_of_all_mapped {recId : α → Nat} {resolve : String → α → Option β}
    {conn : String} {recs : List α} {s : ConnState β}
    (h : ∀ rec ∈ recs, (s.idsMap.lookup (recId rec)).isSome = true) :
    runConnection recId resolve conn recs s = some s := by
  induction recs with
  | nil => rfl
  | cons r recs ih =>
    unfold runConnection
    rw [processRecord_skip (h r (List.mem_cons_self _ _))]
    exact ih fun rec hrec => h rec (List.mem_cons_of_mem _ hrec)

theorem runConnections_maps_shape {mn : String} {recId : α → Nat}
    {resolve : String → α → Option β} {sources : String → List α} {t0 : List MapEntry}
    {cs : List String} {maps0 mapsF : List (String × IdsMap)} {rows rowsF : List (Nat × β)}
    {nid nidF : Nat}
    (h : runConnections mn recId resolve sources t0 cs maps0 rows nid =
      some (mapsF, rowsF, nidF)) :
    ∃ suffix, mapsF = maps0 ++ suffix := by
  induction cs generalizing maps0 rows nid with
  | nil =>
    unfold runConnections at h
    obtain ⟨h1, _, _⟩ := Prod.mk.injEq .. ▸ (Option.some.inj h)
    exact ⟨[], by rw [← h1, List.append_nil]⟩
  | cons c cs ih =>
    unfold runConnections at h
    split at h
    · cases h
    · obtain ⟨suffix, hs⟩ := ih h
      exact ⟨_, by rw [hs, List.append_assoc]⟩

theorem runConnections_conn_mapped {mn : String} {recId : α → Nat}
    {resolve : String → α → Option β} {sources : String → List α} {t0 : List MapEntry}
    {cs : List String} {maps0 mapsF : List (String × IdsMap)} {rows rowsF : List (Nat × β)}
    {nid nidF : Nat}
    (h : runConnections mn recId resolve sources t0 cs maps0 rows nid =
      some (mapsF, rowsF, nidF)) :
    ∀ c ∈ cs, ∃ m, (c, m) ∈ mapsF ∧
      ∀ rec ∈ sources c, (m.lookup (recId rec)).isSome = true := by
  induction cs generalizing maps0 rows nid with
  | nil => intro c hc; cases hc
  | cons c0 cs ih =>
    unfold runConnections at h
    split at h
    · cases h
    · rename_i s hs
      intro c hc
      rcases List.mem_cons.mp hc with hc0 | hc0
      · subst hc0
        refine ⟨s.idsMap, ?_, runConnection_maps_all hs⟩
        obtain ⟨suffix, hsx⟩ := runConnections_maps_shape h
        rw [hsx]
        exact List.mem_append_left _ (List.mem_append_right _ (List.mem_singleton.mpr rfl))
      · exact ih h c hc0

theorem runConnections_id {mn : String} {recId : α → Nat} {resolve : String → α → Option β}
    {sources : String → List α} {t1 : List MapEntry} {cs : List String}
    (h : ∀ c ∈ cs, ∀ rec ∈ sources c, hasTriple t1 c mn (recId rec) = true) :
    ∀ maps0 rows nid,
      runConnections mn recId resolve sources t1 cs maps0 rows nid =
        some (maps0 ++ cs.map (fun c => (c, loadIdsMap t1 mn c)), rows, nid) := by
  induction cs with
  | nil => intro maps0 rows nid; simp [runConnections]
  | cons c cs ih =>
    intro maps0 rows nid
    unfold runConnections
    have hall : ∀ rec ∈ sources c,
        (((loadIdsMap t1 mn c : IdsMap)).lookup (recId rec)).isSome = true := by
      intro rec hrec
      rw [loadIdsMap_lookup_isSome]
      exact h c (List.mem_cons_self _ _) rec hrec
    rw [runConnection_id_of_all_mapped hall]
    dsimp only
    rw [ih (fun c2 hc2 => h c2 (List.mem_cons_of_mem _ hc2))]
    simp

/-- C1 helper: after a successful phase, the persisted table holds a
triple for every source record of every connection. -/
theorem runPhase_all_persisted {mn : String} {recId : α → Nat}
    {resolve : String → α → Option β} {connections : List String} {sources : String → List α}
    {st st' : PhaseState β}
    (h : runPhase mn recId resolve connections sources st = some st') :
    ∀ c ∈ connections, ∀ rec ∈ sources c, hasTriple st'.table c mn (recId rec) = true := by
  unfold runPhase at h
  split at h
  · cases h
  · rename_i maps1 rows1 nid1 hrun
    intro c hc rec hrec
    obtain ⟨m, hm, hmaps⟩ := runConnections_conn_mapped hrun c hc
    obtain ⟨v, hv⟩ := lookup_isSome_mem (hmaps rec hrec)
    have := @saveAll_has_keys mn maps1 st.table c m (recId rec, v) hm hv
    rw [← Option.some.inj h]
    exact this

/-- C1: for every persistent-map entity type (activities, activity
variants, calendar events, registrations, discounts, transactions,
timesheets, timesheet entries, journals, journal entries) and every
source connection, re-processing a source record whose id is already in
the loaded identity map is a no-op (no target row, no new mapping), and
a whole phase run a second time over the same source snapshots returns
the identity-map table, the target rows (hence the row count), and the
next pk unchanged. -/
theorem persistent_merge_idempotent {α β : Type} (recId : α → Nat)
    (resolve : String → α → Option β) (conn mn : String) (connections : List String)
    (sources : String → List α) (st st' : PhaseState β) :
    (∀ (s : ConnState β) (rec : α), (s.idsMap.lookup (recId rec)).isSome = true →
      processRecord recId resolve conn s rec = some s) ∧
    (runPhase mn recId resolve connections sources st = some st' →
      runPhase mn recId resolve connections sources st' = some st') := by
  constructor
  · intro s rec h
    exact processRecord_skip h
  · intro h
    have hall := runPhase_all_persisted h
    have hsave : saveAll mn (connections.map fun c => (c, loadIdsMap st'.table mn c)) st'.table
        = st'.table := by
      apply saveAll_id_of_all_present
      intro cm hcm p hp
      obtain ⟨c, hc, hcm2⟩ := List.mem_map.mp hcm
      rw [← hcm2] at hp ⊢
      exact loadIdsMap_mem_hasTriple hp
    unfold runPhase
    rw [runConnections_id hall [] st'.rows st'.nextId]
    dsimp only
    rw [List.nil_append, hsave]

/-- C1 witness: a one-connection, one-record activities-style phase,
run from an empty state and then re-run on its own result. -/
theorem persistent_merge_idempotent_witness :
    processRecord (fun (r : Nat) => r) (fun _ n => some (n + 100)) "a"
        ⟨[(5, 1)], [(1, 105)], 2⟩ 5 = some ⟨[(5, 1)], [(1, 105)], 2⟩ ∧
    runPhase "activities" (fun (r : Nat) => r) (fun _ n => some (n + 100)) ["a"]
        (fun _ => [5]) ⟨[], [], 1⟩ =
      some ⟨[⟨"activities", "a", 5, 1⟩], [(1, 105)], 2⟩ ∧
    runPhase "activities" (fun (r : Nat) => r) (fun _ n => some (n + 100)) ["a"]
        (fun _ => [5]) ⟨[⟨"activities", "a", 5, 1⟩], [(1, 105)], 2⟩ =
      some ⟨[⟨"activities", "a", 5, 1⟩], [(1, 105)], 2⟩ := by
  refine ⟨?_, ?_, ?_⟩
  · exact (persistent_merge_idempotent (fun r => r) (fun _ n => some (n + 100)) "a"
      "activities" ["a"] (fun _ => [5]) ⟨[], [], 1⟩ ⟨[], [], 1⟩).1
      ⟨[(5, 1)], [(1, 105)], 2⟩ 5 (by decide)
  · decide
  · exact (persistent_merge_idempotent (fun r => r) (fun _ n => some (n + 100)) "a"
      "activities" ["a"] (fun _ => [5]) ⟨[], [], 1⟩
      ⟨[⟨"activities", "a", 5, 1⟩], [(1, 105)], 2⟩).2 (by decide)

/-! ## Lemmas for the append-only property of the stored map -/

theorem tableInsertIgnore_append_shape (t : List MapEntry) (e : MapEntry) :
    ∃ suffix, tableInsertIgnore t e = t ++ suffix := by
  unfold tableInsertIgnore
  split
  · exact ⟨[], by rw [List.append_nil]⟩
  · exact ⟨[e], rfl⟩

theorem saveIdsMap_append_shape (mn c : String) (m : IdsMap) (t : List MapEntry) :
    ∃ suffix, saveIdsMap mn c m t = t ++ suffix := by
  induction m generalizing t with
  | nil => exact ⟨[], by rw [List.append_nil]; rfl⟩
  | cons p m ih =>
    obtain ⟨s1, hs1⟩ := tableInsertIgnore_append_shape t ⟨mn, c, p.1, p.2⟩
    obtain ⟨s2, hs2⟩ := ih (tableInsertIgnore t ⟨mn, c, p.1, p.2⟩)
    refine ⟨s1 ++ s2, ?_⟩
    unfold saveIdsMap at hs2 ⊢
    rw [List.foldl_cons, hs2, hs1, List.append_assoc]

theorem findTriple_append_of_isSome {t : List MapEntry} {c mn : String} {f : Nat}
    (t2 : List MapEntry) (h : (findTriple t c mn f).isSome = true) :
    findTriple (t ++ t2) c mn f = findTriple t c mn f := by
  unfold findTriple at h ⊢
  induction t with
  | nil => simp [List.find?] at h
  | cons e t ih =>
    rw [List.cons_append, List.find?_cons, List.find?_cons]
    split
    · rfl
    · rw [List.find?_cons] at h
      split at h
      · simp_all
      · exact ih h

theorem hasTriple_iff_mem {t : List MapEntry} {c mn : String} {f : Nat} :
    hasTriple t c mn f = true ↔ (c, mn, f) ∈ t.map tripleOf := by
  unfold hasTriple
  rw [List.any_eq_true]
  constructor
  · rintro ⟨e, he, hcond⟩
    have h1 : e.connection = c ∧ e.model_name = mn ∧ e.foreign_id = f := by
      simpa [Bool.and_eq_true, and_assoc] using hcond
    refine List.mem_map.mpr ⟨e, he, ?_⟩
    unfold tripleOf
    rw [h1.1, h1.2.1, h1.2.2]
  · intro hm
    obtain ⟨e, he, heq⟩ := List.mem_map.mp hm
    unfold tripleOf at heq
    rw [Prod.mk.injEq, Prod.mk.injEq] at heq
    refine ⟨e, he, ?_⟩
    simp [heq.1, heq.2.1, heq.2.2]

theorem uniqueTriples_tableInsertIgnore {t : List MapEntry} (e : MapEntry)
    (h : UniqueTriples t) : UniqueTriples (tableInsertIgnore t e) := by
  unfold tableInsertIgnore
  split
  · exact h
  · rename_i hmiss
    unfold UniqueTriples at h ⊢
    rw [List.map_append, List.map_singleton]
    rw [List.nodup_append]
    refine ⟨h, List.nodup_singleton _, ?_⟩
    intro x hx hx1
    rw [List.mem_singleton.mp hx1] at hx
    rw [Bool.not_eq_true] at hmiss
    have : ¬ (e.connection, e.model_name, e.foreign_id) ∈ t.map tripleOf := by
      intro hc
      rw [← hasTriple_iff_mem] at hc
      rw [hc] at hmiss
      cases hmiss
    exact this hx

theorem uniqueTriples_saveIdsMap (mn c : String) (m : IdsMap) {t : List MapEntry}
    (h : UniqueTriples t) : UniqueTriples (saveIdsMap mn c m t) := by
  induction m generalizing t with
  | nil => exact h
  | cons p m ih =>
    unfold saveIdsMap
    rw [List.foldl_cons]
    exact ih (uniqueTriples_tableInsertIgnore _ h)

/-- C3: persisting an identity map is append-only: the stored table is
only extended, an insert for an already-present triple never changes the
stored `local_id` (the first stored row for a triple stays the row found
afterwards), and the uniqueness of `(connection, model_name,
foreign_id)` is preserved, so each stored triple keeps exactly one
target id. -/
theorem ids_map_append_only (modelName conn : String) (m : IdsMap) (table : List MapEntry) :
    (∃ suffix, saveIdsMap modelName conn m table = table ++ suffix) ∧
    (∀ fid, (findTriple table conn modelName fid).isSome = true →
      findTriple (saveIdsMap modelName conn m table) conn modelName fid =
        findTriple table conn modelName fid) ∧
    (UniqueTriples table → UniqueTriples (saveIdsMap modelName conn m table)) := by
  refine ⟨saveIdsMap_append_shape modelName conn m table, ?_, uniqueTriples_saveIdsMap _ _ m⟩
  intro fid h
  obtain ⟨suffix, hs⟩ := saveIdsMap_append_shape modelName conn m table
  rw [hs]
  exact findTriple_append_of_isSome suffix h

/-- C3 witness: saving a map holding one already-stored triple (with a
conflicting `local_id`) and one new pair extends the table, leaves the
stored row for the conflicting triple unchanged, and keeps triples
unique. -/
theorem ids_map_append_only_witness :
    findTriple
        (saveIdsMap "activities" "a" [(1, 99), (2, 20)] [⟨"activities", "a", 1, 10⟩])
        "a" "activities" 1 = findTriple [⟨"activities", "a", 1, 10⟩] "a" "activities" 1 ∧
    UniqueTriples
      (saveIdsMap "activities" "a" [(1, 99), (2, 20)] [⟨"activities", "a", 1, 10⟩]) := by
  constructor
  · exact (ids_map_append_only "activities" "a" [(1, 99), (2, 20)]
      [⟨"activities", "a", 1, 10⟩]).2.1 1 (by decide)
  · exact (ids_map_append_only "activities" "a" [(1, 99), (2, 20)]
      [⟨"activities", "a", 1, 10⟩]).2.2 (by decide)

/-- C5: username resolution tries, in this exact order, the requested
username, the local part of the email, the full email, then the
random-suffix tier, returning the first candidate not taken; the
warning fires exactly when the random tier is reached. -/
theorem username_fallback_order (username email : String) (usernames : List String)
    (gen : Nat → String) (h : ∃ n, randomCandidate username gen n ∉ usernames) :
    (username ∉ usernames →
      ensure_unique_username username email usernames gen h = (username, false)) ∧
    (username ∈ usernames → localPart email ∉ usernames →
      ensure_unique_username username email usernames gen h = (localPart email, false)) ∧
    (username ∈ usernames → localPart email ∈ usernames → email ∉ usernames →
      ensure_unique_username username email usernames gen h = (email, false)) ∧
    (username ∈ usernames → localPart email ∈ usernames → email ∈ usernames →
      ensure_unique_username username email usernames gen h =
        (randomCandidate username gen (Nat.find h), true) ∧
      randomCandidate username gen (Nat.find h) ∉ usernames) ∧
    ((ensure_unique_username username email usernames gen h).2 = true ↔
      (username ∈ usernames ∧ localPart email ∈ usernames ∧ email ∈ usernames)) := by
  unfold ensure_unique_username
  by_cases h1 : username ∈ usernames <;> by_cases h2 : localPart email ∈ usernames <;>
    by_cases h3 : email ∈ usernames <;>
    simp [h1, h2, h3, Nat.find_spec h]

/-- C5 witness: the requested username is free and returned on the first
tier with no warning. -/
theorem username_fallback_order_witness :
    ensure_unique_username "alice" "alice@example.com" ["bob"] (fun _ => "abc")
      ⟨0, by decide⟩ = ("alice", false) :=
  (username_fallback_order "alice" "alice@example.com" ["bob"] (fun _ => "abc")
    ⟨0, by decide⟩).1 (by decide)

/-- C10: the resolved username is never a member of the taken set,
whichever tier produced it. -/
theorem username_not_taken (username email : String) (usernames : List String)
    (gen : Nat → String) (h : ∃ n, randomCandidate username gen n ∉ usernames) :
    (ensure_unique_username username email usernames gen h).1 ∉ usernames := by
  unfold ensure_unique_username
  by_cases h1 : username ∈ usernames <;> by_cases h2 : localPart email ∈ usernames <;>
    by_cases h3 : email ∈ usernames <;>
    simp [h1, h2, h3, Nat.find_spec h]

/-- C10 witness: a resolution that falls through to the full email still
avoids the taken set. -/
theorem username_not_taken_witness :
    (ensure_unique_username "carol" "carol@example.org" ["carol"] (fun _ => "x7f")
      ⟨0, by decide⟩).1 ∉ ["carol"] :=
  username_not_taken "carol" "carol@example.org" ["carol"] (fun _ => "x7f") ⟨0, by decide⟩

/-- The promotion block never changes the user's pk. -/
theorem update_local_user_id (fu lu : MUser) : (update_local_user fu lu).1.id = lu.id := by
  unfold update_local_user
  simp only [apply_ite Prod.fst, apply_ite MUser.id]
  simp [ite_self]

theorem update_local_user_first_name (fu lu : MUser) :
    (update_local_user fu lu).1.first_name =
      if fu.first_name ≠ "" ∧ lu.first_name = "" then fu.first_name else lu.first_name := by
  unfold update_local_user
  simp only [apply_ite Prod.fst, apply_ite MUser.first_name, apply_ite MUser.last_name,
    apply_ite MUser.is_active, apply_ite MUser.is_staff, apply_ite MUser.is_superuser,
    apply_ite MUser.date_joined]
  simp [ite_self]

theorem update_local_user_last_name (fu lu : MUser) :
    (update_local_user fu lu).1.last_name =
      if fu.last_name ≠ "" ∧ lu.last_name = "" then fu.last_name else lu.last_name := by
  unfold update_local_user
  simp only [apply_ite Prod.fst, apply_ite MUser.first_name, apply_ite MUser.last_name,
    apply_ite MUser.is_active, apply_ite MUser.is_staff, apply_ite MUser.is_superuser,
    apply_ite MUser.date_joined]
  simp [ite_self]

theorem update_local_user_is_active (fu lu : MUser) :
    (update_local_user fu lu).1.is_active = (lu.is_active || fu.is_active) := by
  unfold update_local_user
  simp only [apply_ite Prod.fst, apply_ite MUser.first_name, apply_ite MUser.last_name,
    apply_ite MUser.is_active, apply_ite MUser.is_staff, apply_ite MUser.is_superuser,
    apply_ite MUser.date_joined]
  simp only [ite_self]
  by_cases ha : fu.is_active <;> by_cases hb : lu.is_active <;> simp [ha, hb]

theorem update_local_user_is_staff (fu lu : MUser) :
    (update_local_user fu lu).1.is_staff = (lu.is_staff || fu.is_staff) := by
  unfold update_local_user
  simp only [apply_ite Prod.fst, apply_ite MUser.first_name, apply_ite MUser.last_name,
    apply_ite MUser.is_active, apply_ite MUser.is_staff, apply_ite MUser.is_superuser,
    apply_ite MUser.date_joined]
  simp only [ite_self]
  by_cases ha : fu.is_staff <;> by_cases hb : lu.is_staff <;> simp [ha, hb]

theorem update_local_user_is_superuser (fu lu : MUser) :
    (update_local_user fu lu).1.is_superuser = (lu.is_superuser || fu.is_superuser) := by
  unfold update_local_user
  simp only [apply_ite Prod.fst, apply_ite MUser.first_name, apply_ite MUser.last_name,
    apply_ite MUser.is_active, apply_ite MUser.is_staff, apply_ite MUser.is_superuser,
    apply_ite MUser.date_joined]
  simp only [ite_self]
  by_cases ha : fu.is_superuser <;> by_cases hb : lu.is_superuser <;> simp [ha, hb]

theorem update_local_user_date_joined (fu lu : MUser) :
    (update_local_user fu lu).1.date_joined = min fu.date_joined lu.date_joined := by
  unfold update_local_user
  simp only [apply_ite Prod.fst, apply_ite MUser.first_name, apply_ite MUser.last_name,
    apply_ite MUser.is_active, apply_ite MUser.is_staff, apply_ite MUser.is_superuser,
    apply_ite MUser.date_joined]
  simp only [ite_self]
  split <;> omega

/-- C6: user field promotion is fill-if-empty and one-directional: a
non-empty source name fills an empty target name, a blank source name
never blanks a target value, a non-empty target name is never
overwritten, the three permission flags only go from false to true, and
the earlier `date_joined` is kept. -/
theorem user_field_promotion (fu lu : MUser) :
    (fu.first_name ≠ "" → lu.first_name = "" →
      (update_local_user fu lu).1.first_name = fu.first_name) ∧
    (fu.first_name = "" → (update_local_user fu lu).1.first_name = lu.first_name) ∧
    (lu.first_name ≠ "" → (update_local_user fu lu).1.first_name = lu.first_name) ∧
    (fu.last_name ≠ "" → lu.last_name = "" →
      (update_local_user fu lu).1.last_name = fu.last_name) ∧
    (fu.last_name = "" → (update_local_user fu lu).1.last_name = lu.last_name) ∧
    (lu.last_name ≠ "" → (update_local_user fu lu).1.last_name = lu.last_name) ∧
    (update_local_user fu lu).1.is_active = (lu.is_active || fu.is_active) ∧
    (update_local_user fu lu).1.is_staff = (lu.is_staff || fu.is_staff) ∧
    (update_local_user fu lu).1.is_superuser = (lu.is_superuser || fu.is_superuser) ∧
    (update_local_user fu lu).1.date_joined = min fu.date_joined lu.date_joined := by
  rw [update_local_user_first_name, update_local_user_last_name]
  refine ⟨?_, ?_, ?_, ?_, ?_, ?_, update_local_user_is_active fu lu,
    update_local_user_is_staff fu lu, update_local_user_is_superuser fu lu,
    update_local_user_date_joined fu lu⟩
  · intro h1 h2
    rw [if_pos ⟨h1, h2⟩]
  · intro h1
    rw [if_neg]
    rintro ⟨ha, _⟩
    exact ha h1
  · intro h1
    rw [if_neg]
    rintro ⟨_, hb⟩
    exact h1 hb
  · intro h1 h2
    rw [if_pos ⟨h1, h2⟩]
  · intro h1
    rw [if_neg]
    rintro ⟨ha, _⟩
    exact ha h1
  · intro h1
    rw [if_neg]
    rintro ⟨_, hb⟩
    exact h1 hb

/-- C6 witness: a target user with an empty first name, lowered flags and
a later join date takes the source's first name, flags and earlier join
date, while its non-empty last name stays. -/
theorem user_field_promotion_witness :
    (update_local_user ⟨3, "f", "f@x", "Ann", "", true, false, false, 5⟩
        ⟨9, "l", "f@x", "", "Lee", false, false, false, 8⟩).1.first_name = "Ann" ∧
    (update_local_user ⟨3, "f", "f@x", "Ann", "", true, false, false, 5⟩
        ⟨9, "l", "f@x", "", "Lee", false, false, false, 8⟩).1.last_name = "Lee" ∧
    (update_local_user ⟨3, "f", "f@x", "Ann", "", true, false, false, 5⟩
        ⟨9, "l", "f@x", "", "Lee", false, false, false, 8⟩).1.is_active = true ∧
    (update_local_user ⟨3, "f", "f@x", "Ann", "", true, false, false, 5⟩
        ⟨9, "l", "f@x", "", "Lee", false, false, false, 8⟩).1.date_joined = 5 := by
  have h := user_field_promotion ⟨3, "f", "f@x", "Ann", "", true, false, false, 5⟩
    ⟨9, "l", "f@x", "", "Lee", false, false, false, 8⟩
  refine ⟨h.1 (by decide) (by decide), h.2.2.2.2.2.1 (by decide), ?_, ?_⟩
  · rw [h.2.2.2.2.2.2.1]
    decide
  · rw [h.2.2.2.2.2.2.2.2.2]
    decide

/-- C9: a source discount with `amount == 0` is skipped without error,
without an inserted row and without a map entry; any other
not-yet-mapped discount whose foreign keys resolve is copied and
mapped. -/
theorem zero_discount_skip (regMap userMap : IdsMap) (s : DiscountState)
    (d : ForeignDiscount) :
    (d.amount = 0 → merge_one_discount regMap userMap s d = some s) ∧
    (s.idsMap.lookup d.id = none → d.amount ≠ 0 →
      ∀ rid acc lub, indexLookup regMap d.registration_id = some rid →
        optIndexLookup userMap d.accounted_by_id = some acc →
        optIndexLookup userMap d.last_updated_by_id = some lub →
        merge_one_discount regMap userMap s d =
          some ⟨s.idsMap ++ [(d.id, s.nextId)],
            s.rows ++
              [⟨s.nextId, d.amount, rid, d.registration_period_id.getD 0, acc, lub⟩],
            s.nextId + 1⟩) := by
  constructor
  · intro h
    unfold merge_one_discount
    rw [if_pos]
    rw [h]
    simp
  · intro h1 h2 rid acc lub e1 e2 e3
    unfold merge_one_discount
    rw [if_neg, e1, e2, e3]
    rw [h1]
    simp [h2]

/-- C9 witness: a zero-amount discount is skipped; a nonzero unmapped one
is inserted and mapped. -/
theorem zero_discount_skip_witness :
    merge_one_discount [(3, 30)] [] ⟨[], [], 1⟩ ⟨7, 0, 3, none, none, none⟩ =
      some ⟨[], [], 1⟩ ∧
    merge_one_discount [(3, 30)] [] ⟨[], [], 1⟩ ⟨7, 250, 3, none, none, none⟩ =
      some ⟨[(7, 1)], [⟨1, 250, 30, 0, none, none⟩], 2⟩ := by
  constructor
  · exact (zero_discount_skip [(3, 30)] [] ⟨[], [], 1⟩ ⟨7, 0, 3, none, none, none⟩).1 rfl
  · exact (zero_discount_skip [(3, 30)] [] ⟨[], [], 1⟩ ⟨7, 250, 3, none, none, none⟩).2
      rfl (by decide) 30 none none rfl rfl rfl

/-- C7: every phase runs in its own transaction: when a phase raises, the
run's final state is exactly the state committed by the earlier phases
(the failing phase's writes are rolled back), the orchestrator prints the
failure glyph for that phase, the exception is re-raised unchanged, and
no later phase runs. -/
theorem phase_transaction_abort {St E : Type}
    (pre post : List (String × Bool × (St → Except E St))) (label : String) (long : Bool)
    (f : St → Except E St) (s0 s1 : St) (outPre : List String) (e : E)
    (hpre : runPhases pre s0 = (outPre, s1, none)) (hf : f s1 = .error e) :
    runPhases (pre ++ (label, long, f) :: post) s0 =
      (outPre ++ [label ++ " ... " ++ (if long then "\n" else " "),
        (if long then label ++ " ... " else "") ++ "\u274c"], s1, some e) := by
  induction pre generalizing s0 outPre with
  | nil =>
    unfold runPhases at hpre
    simp only [Prod.mk.injEq] at hpre
    obtain ⟨h1, h2, -⟩ := hpre
    subst h2
    rw [List.nil_append, ← h1, List.nil_append]
    unfold runPhases perform_operation
    rw [hf]
  | cons ph pre ih =>
    obtain ⟨lab, lng, g⟩ := ph
    rw [List.cons_append]
    unfold runPhases perform_operation at hpre ⊢
    cases hg : g s0 with
    | error e0 =>
      rw [hg] at hpre
      simp at hpre
    | ok s2 =>
      rw [hg] at hpre
      dsimp only at hpre ⊢
      rcases hrr : runPhases pre s2 with ⟨o2, s2f, r2⟩
      rw [hrr] at hpre
      simp only [Prod.mk.injEq] at hpre
      obtain ⟨h1, h2, h3⟩ := hpre
      subst h2
      rw [h3] at hrr
      rw [ih s2 o2 hrr]
      rw [← h1, List.append_assoc]

/-- C7 witness: a three-phase run whose middle phase raises: the first
phase's commit survives, the middle phase's write is rolled back, the
failure is reported and re-raised, and the third phase never runs. -/
theorem phase_transaction_abort_witness :
    runPhases ([("Merging users", false, fun s => Except.ok (s + 1)),
        ("Merging folders", false, fun _ => Except.error "KeyError"),
        ("Merging files", false, fun s => Except.ok (s + 5))] :
        List (String × Bool × (Nat → Except String Nat))) 0 =
      (["Merging users ...  ", "✅", "Merging folders ...  ", "❌"], 1, some "KeyError") := by
  have h := phase_transaction_abort
    [("Merging users", false, fun s => Except.ok (s + 1))]
    [("Merging files", false, fun s => Except.ok (s + 5))]
    "Merging folders" false (fun _ => Except.error "KeyError") 0 1
    ["Merging users ...  ", "✅"] "KeyError" (by decide) rfl
  exact h

/-- C2 counterexample: merging a folder whose `owner_id` has no entry in
the user identity map does not raise: `dict.get` returns `None` and the
folder is persisted with a null owner.  The same happens to a file whose
owner (and folder) have no mapping entry. -/
theorem folder_owner_get_counterexample :
    merge_folder_node [] (some 1) ⟨7, "docs", some 5⟩ [] 2 =
      (⟨2, some 1, "docs", none⟩, [⟨2, some 1, "docs", none⟩], 3) ∧
    merge_one_file [] [] ⟨[], [], [], 1⟩ ⟨9, some 4, "abc", some 5⟩ =
      ⟨[((none, "abc"), 1)], [⟨1, none, "abc", none⟩], [(9, 1)], 2⟩ := by
  constructor
  · rfl
  · rfl

/-- C2 amended: foreign keys resolved by direct identity-map indexing do
abort on a missing entry (for example an activity's school-year or
activity-type key, and a discount's registration key), but the owner
foreign key of folders and files — and the file's folder key — go
through `dict.get`, so a missing or null entry yields a persisted null
value instead of an error. -/
theorem fk_resolution_amended :
    (∀ (sy at_ dep pl : String → IdsMap) (conn : String) (s : ConnState ActivityRow)
      (a : ForeignActivity), s.idsMap.lookup a.id = none →
      (sy conn).lookup a.school_year_id = none →
      processRecord (fun r => r.id) (resolveActivity sy at_ dep pl) conn s a = none) ∧
    (∀ (regMap userMap : IdsMap) (s : DiscountState) (d : ForeignDiscount),
      s.idsMap.lookup d.id = none → d.amount ≠ 0 → regMap.lookup d.registration_id = none →
      merge_one_discount regMap userMap s d = none) ∧
    (∀ (userMap : IdsMap) (oid : Nat), userMap.lookup oid = none →
      ∀ (localParent : Option Nat) (ff : FFolder) (folders : List TFolder) (nid : Nat),
        ff.owner_id = some oid →
        (folders.find? fun f => f.parent == localParent && f.name == ff.name) = none →
        merge_folder_node userMap localParent ff folders nid =
          (⟨nid, localParent, ff.name, none⟩, folders ++ [⟨nid, localParent, ff.name, none⟩],
            nid + 1)) ∧
    (∀ (userMap folderMap : IdsMap) (st : FilesState) (ff : FFile) (oid : Nat),
      userMap.lookup oid = none → ff.owner_id = some oid →
      st.existingFileIds.lookup (dictGet folderMap ff.folder_id, ff.sha1) = none →
      merge_one_file userMap folderMap st ff =
        ⟨st.existingFileIds ++ [((dictGet folderMap ff.folder_id, ff.sha1), st.nextId)],
          st.rows ++ [⟨st.nextId, dictGet folderMap ff.folder_id, ff.sha1, none⟩],
          st.fileIdsMap ++ [(ff.id, st.nextId)], st.nextId + 1⟩) := by
  refine ⟨?_, ?_, ?_, ?_⟩
  · intro sy at_ dep pl conn s a h1 h2
    unfold processRecord
    rw [h1]
    simp only [Option.isSome_none, Bool.false_eq_true, if_false]
    unfold resolveActivity indexLookup
    rw [h2]
    split
    · rfl
    · rename_i b heq
      split at heq
      · cases heq
      · exact Option.noConfusion heq
  · intro regMap userMap s d h1 h2 h3
    unfold merge_one_discount
    rw [if_neg]
    · unfold indexLookup
      rw [h3]
    · rw [h1]
      simp [h2]
  · intro userMap oid h1 localParent ff folders nid h2 h3
    unfold merge_folder_node getOrCreateFolder dictGet
    rw [h3, h2]
    dsimp only
    rw [h1]
  · intro userMap folderMap st ff oid h1 h2 h3
    unfold merge_one_file
    dsimp only
    rw [h3]
    unfold dictGet
    rw [h2]
    dsimp only
    rw [h1]

/-- C2 amended witness: a concrete unmapped school year aborts the
activity merger; a concrete unmapped registration aborts the discount
merger; concrete unmapped owners leave null owners on a folder and a
file. -/
theorem fk_resolution_amended_witness :
    processRecord (fun (r : ForeignActivity) => r.id)
        (resolveActivity (fun _ => []) (fun _ => []) (fun _ => []) (fun _ => [])) "a"
        ⟨[], [], 1⟩ ⟨4, "course", 2, 3, none, none⟩ = none ∧
    merge_one_discount [] [] ⟨[], [], 1⟩ ⟨8, 100, 3, none, none, none⟩ = none ∧
    merge_folder_node [] none ⟨11, "img", some 6⟩ [] 1 =
      (⟨1, none, "img", none⟩, [⟨1, none, "img", none⟩], 2) := by
  refine ⟨?_, ?_, ?_⟩
  · exact fk_resolution_amended.1 (fun _ => []) (fun _ => []) (fun _ => []) (fun _ => [])
      "a" ⟨[], [], 1⟩ ⟨4, "course", 2, 3, none, none⟩ rfl rfl
  · exact fk_resolution_amended.2.1 [] [] ⟨[], [], 1⟩ ⟨8, 100, 3, none, none, none⟩ rfl
      (by decide) rfl
  · exact fk_resolution_amended.2.2.1 [] 6 rfl none ⟨11, "img", some 6⟩ [] 1 rfl rfl

/-- C8 counterexample: the `fix_broken_files` phase executes writes
against a source connection: a source image row with an empty `file`
field is rewritten in place, so the source database contents change. -/
theorem fix_broken_files_writes_source_counterexample :
    fix_broken_files_phase
        ⟨[("boskovice", ⟨[⟨1, "image", ""⟩], [], [], []⟩)], [], [("boskovice", [])], 1⟩ =
      ⟨[("boskovice", ⟨[⟨1, "image", "filer_dummy/placeholder.png"⟩], [], [], []⟩)], [],
        [("boskovice", [])], 1⟩ ∧
    (fix_broken_files_phase
        ⟨[("boskovice", ⟨[⟨1, "image", ""⟩], [], [], []⟩)], [], [("boskovice", [])], 1⟩).sources ≠
      [("boskovice", ⟨[⟨1, "image", ""⟩], [], [], []⟩)] := by
  constructor
  · rfl
  · decide

/-- C8 amended: only the two repair steps (`fix_broken_files`,
`fix_activities`) write to the source databases; the merge phases leave
the sources untouched, `fix_broken_files` changes nothing when no file
row has an empty path, and `fix_activities` changes nothing when every
activity's discriminator already agrees with its model. -/
theorem source_writes_amended :
    (∀ p : Pipeline, (merge_departments_phase p).sources = p.sources) ∧
    (∀ files : List SrcFile, (∀ f ∈ files, f.file ≠ "") →
      fix_broken_files_conn files = files) ∧
    (∀ (ats : List (Nat × String)) (acts : List SrcActivity) (m : String),
      (∀ a ∈ acts, activityTypeModel ats a.activity_type_id = some m) →
      fix_activities_conn ats acts m = some acts) := by
  refine ⟨fun p => rfl, ?_, ?_⟩
  · intro files
    induction files with
    | nil => intro h; rfl
    | cons f fs ih =>
      intro h
      have hb : (f.file == "") = false := by
        simp only [beq_eq_false_iff_ne, ne_eq]
        exact h f (List.mem_cons_self _ _)
      have ih2 := ih fun g hg => h g (List.mem_cons_of_mem _ hg)
      unfold fix_broken_files_conn at ih2 ⊢
      dsimp only at ih2 ⊢
      simp only [List.map_cons, hb, Bool.and_false, Bool.false_eq_true, if_false]
      rw [ih2]
  · intro ats acts m h
    unfold fix_activities_conn
    have hfil : (acts.filter fun a =>
        !(activityTypeModel ats a.activity_type_id == some m)) = [] := by
      rw [List.filter_eq_nil_iff]
      intro a ha
      simp [h a ha]
    dsimp only
    rw [hfil]
    simp

/-- C8 amended witness: a department-merge step over a pipeline with one
source leaves the source databases untouched, and the repair steps keep
clean sources unchanged. -/
theorem source_writes_amended_witness :
    (merge_departments_phase
        ⟨[("letovice", ⟨[⟨1, "file", "a.txt"⟩], [(4, "course")], [⟨2, 4⟩], [⟨3, "Sport"⟩]⟩)],
          [], [("letovice", [])], 1⟩).sources =
      [("letovice", ⟨[⟨1, "file", "a.txt"⟩], [(4, "course")], [⟨2, 4⟩], [⟨3, "Sport"⟩]⟩)] ∧
    fix_broken_files_conn [⟨1, "file", "a.txt"⟩] = [⟨1, "file", "a.txt"⟩] ∧
    fix_activities_conn [(4, "course")] [⟨2, 4⟩] "course" = some [⟨2, 4⟩] := by
  refine ⟨source_writes_amended.1 _, ?_, ?_⟩
  · exact source_writes_amended.2.1 [⟨1, "file", "a.txt"⟩] (by decide)
  · exact source_writes_amended.2.2 [(4, "course")] [⟨2, 4⟩] "course" (by decide)

/-! ## Lemmas for natural-key deduplication -/

theorem mem_strings_length_le {us : List String} {s : String} (h : s ∈ us) :
    s.length ≤ (us.map String.length).foldr max 0 := by
  induction us with
  | nil => cases h
  | cons u us ih =>
    simp only [List.map_cons, List.foldr_cons]
    rcases List.mem_cons.mp h with h1 | h1
    · subst h1
      exact le_max_left _ _
    · exact le_trans (ih h1) (le_max_right _ _)

theorem randomCandidate_replicate_length (un : String) (n : Nat) :
    n ≤ (randomCandidate un (fun k => String.mk (List.replicate k 'z')) n).length := by
  unfold randomCandidate
  dsimp only
  rw [String.length_append, String.length_append]
  have h : (String.mk (List.replicate n 'z')).length = n := by
    simp [String.length]
  rw [h]
  omega

/-- A generator with candidates of unbounded length always escapes a
finite taken set. -/
theorem exists_fresh_randomCandidate (un : String) (us : List String) :
    ∃ n, randomCandidate un (fun k => String.mk (List.replicate k 'z')) n ∉ us := by
  refine ⟨(us.map String.length).foldr max 0 + 1, fun hmem => ?_⟩
  have h1 := mem_strings_length_le hmem
  have h2 := randomCandidate_replicate_length un ((us.map String.length).foldr max 0 + 1)
  omega

/-- Evaluation of `merge_departments` over two sources with one record
each and an empty target. -/
theorem merge_departments_two_sources (d1 d2 : MDepartment) :
    merge_departments ["a", "b"] (fun c => if c == "a" then [d1] else [d2]) [] 1 =
      if d2.name = d1.name then
        ⟨[(d1.name, 1)], [⟨1, d1.name⟩], [("a", [(d1.id, 1)]), ("b", [(d2.id, 1)])], 2⟩
      else
        ⟨[(d1.name, 1), (d2.name, 2)], [⟨1, d1.name⟩, ⟨2, d2.name⟩],
          [("a", [(d1.id, 1)]), ("b", [(d2.id, 2)])], 3⟩ := by
  by_cases hname : d2.name = d1.name
  · simp [merge_departments, merge_one_department, mapInsert, hname, List.lookup]
  · have hb : (d2.name == d1.name) = false := by
      simp only [beq_eq_false_iff_ne, ne_eq]
      exact hname
    simp [merge_departments, merge_one_department, mapInsert, hname, hb, List.lookup]

theorem setUserByEmail_length (l : List (String × MUser)) (email : String) (u : MUser) :
    (setUserByEmail l email u).length = l.length := by
  unfold setUserByEmail
  rw [List.length_map]

theorem update_local_user_self_copy (fu : MUser) (i : Nat) (w : String) :
    update_local_user fu { fu with id := i, username := w } =
      ({ fu with id := i, username := w }, false) := by
  unfold update_local_user
  dsimp only
  simp only [ne_eq, not_and_self_iff, and_not_self_iff, lt_self_iff_false, if_false]

theorem setUserByEmail_append_self (l : List (String × MUser)) (e1 : String) (lu : MUser)
    (h : l.lookup e1 = none) :
    setUserByEmail (l ++ [(e1, lu)]) e1 lu = l ++ [(e1, lu)] := by
  induction l with
  | nil => simp [setUserByEmail]
  | cons p l ih =>
    by_cases hp : e1 == p.1
    · simp [List.lookup, hp] at h
    · rw [Bool.not_eq_true] at hp
      simp only [List.lookup, hp] at h
      have hp2 : (p.1 == e1) = false := by
        simp only [beq_eq_false_iff_ne, ne_eq] at hp ⊢
        exact fun hx => hp hx.symm
      unfold setUserByEmail at ih ⊢
      simp only [List.cons_append, List.map_cons, hp2, Bool.false_eq_true, if_false]
      rw [ih h]

theorem merge_one_user_create (gen : Nat → String)
    (hgen : ∀ (un : String) (us : List String), ∃ n, randomCandidate un gen n ∉ us)
    (conn : String) (st : UsersState) (fu0 : MUser)
    (hmiss : st.usersByEmail.lookup (lower fu0.email) = none) :
    merge_one_user gen hgen conn st fu0 =
      { usersByEmail :=
          st.usersByEmail ++
            [((lower fu0.email),
              { fu0 with
                  email := (lower fu0.email)
                  id := st.nextId
                  username :=
                    (ensure_unique_username fu0.username (lower fu0.email)
                      st.usernames gen (hgen fu0.username st.usernames)).1 })]
        usernames :=
          st.usernames ++
            [(ensure_unique_username fu0.username (lower fu0.email)
              st.usernames gen (hgen fu0.username st.usernames)).1]
        maps := mapInsert st.maps conn fu0.id st.nextId
        nextId := st.nextId + 1 } := by
  unfold merge_one_user
  dsimp only
  rw [hmiss]
  dsimp only
  rw [update_local_user_self_copy]
  dsimp only
  rw [setUserByEmail_append_self _ _ _ hmiss]

theorem merge_one_user_found (gen : Nat → String)
    (hgen : ∀ (un : String) (us : List String), ∃ n, randomCandidate un gen n ∉ us)
    (conn : String) (st : UsersState) (fu0 lu : MUser)
    (hfound : st.usersByEmail.lookup (lower fu0.email) = some lu) :
    merge_one_user gen hgen conn st fu0 =
      { st with
          usersByEmail :=
            setUserByEmail st.usersByEmail (lower fu0.email)
              (update_local_user { fu0 with email := (lower fu0.email) } lu).1
          maps :=
            mapInsert st.maps conn fu0.id
              (update_local_user { fu0 with email := (lower fu0.email) } lu).1.id } := by
  unfold merge_one_user
  dsimp only
  rw [hfound]

/-- C4: natural-key deduplication: two source records from different
sources with equal natural keys (user email, compared case-insensitively;
department name) merge into exactly one target record and both sources'
identity maps point to its id; distinct natural keys produce two distinct
target records, to which the maps point respectively. -/
theorem natural_key_dedup (d1 d2 : MDepartment) (u1 u2 : MUser) (gen : Nat → String)
    (hgen : ∀ (un : String) (us : List String), ∃ n, randomCandidate un gen n ∉ us) :
    (∀ R : DeptState,
      R = merge_departments ["a", "b"] (fun c => if c == "a" then [d1] else [d2]) [] 1 →
      (d1.name = d2.name → R.rows.length = 1 ∧
        mapsLookup R.maps "a" d1.id = some 1 ∧ mapsLookup R.maps "b" d2.id = some 1) ∧
      (d1.name ≠ d2.name → R.rows.length = 2 ∧
        mapsLookup R.maps "a" d1.id = some 1 ∧ mapsLookup R.maps "b" d2.id = some 2)) ∧
    (∀ U : UsersState,
      U = merge_users gen hgen ["a", "b"] (fun c => if c == "a" then [u1] else [u2]) [] 1 →
      ((lower u1.email) = (lower u2.email) → U.usersByEmail.length = 1 ∧
        mapsLookup U.maps "a" u1.id = some 1 ∧ mapsLookup U.maps "b" u2.id = some 1) ∧
      ((lower u1.email) ≠ (lower u2.email) → U.usersByEmail.length = 2 ∧
        mapsLookup U.maps "a" u1.id = some 1 ∧ mapsLookup U.maps "b" u2.id = some 2)) := by
  constructor
  · intro R hR
    subst hR
    rw [merge_departments_two_sources]
    constructor
    · intro hname
      rw [if_pos hname.symm]
      refine ⟨rfl, ?_, ?_⟩ <;> simp [mapsLookup, List.lookup]
    · intro hname
      rw [if_neg fun h => hname h.symm]
      refine ⟨rfl, ?_, ?_⟩ <;> simp [mapsLookup, List.lookup]
  · intro U hU
    subst hU
    unfold merge_users
    dsimp only
    simp only [List.map_cons, List.map_nil, List.foldl_cons, List.foldl_nil]
    rw [show (if (("a" == "a") = true) then [u1] else [u2]) = [u1] from rfl,
      show (if (("b" == "a") = true) then [u1] else [u2]) = [u2] from rfl]
    simp only [List.foldl_cons, List.foldl_nil]
    rw [merge_one_user_create gen hgen "a" ⟨[], [], [("a", []), ("b", [])], 1⟩ u1 rfl]
    dsimp only
    simp only [List.nil_append]
    constructor
    · intro hem
      have hfound : (([((lower u1.email),
          { u1 with
              email := (lower u1.email)
              id := 1
              username := (ensure_unique_username u1.username (lower u1.email) [] gen
                (hgen u1.username [])).1 })] : List (String × MUser)).lookup
            (lower u2.email)) = some
          { u1 with
              email := (lower u1.email)
              id := 1
              username := (ensure_unique_username u1.username (lower u1.email) [] gen
                (hgen u1.username [])).1 } := by
        rw [← hem]
        simp [List.lookup]
      rw [merge_one_user_found gen hgen "b" _ u2 _ hfound]
      refine ⟨?_, ?_, ?_⟩ <;>
        simp [setUserByEmail_length, mapsLookup, mapInsert, update_local_user_id,
          List.lookup, show (("a" == "b") : Bool) = false from rfl]
    · intro hem
      have hmiss2 : (([((lower u1.email),
          { u1 with
              email := (lower u1.email)
              id := 1
              username := (ensure_unique_username u1.username (lower u1.email) [] gen
                (hgen u1.username [])).1 })] : List (String × MUser)).lookup
            (lower u2.email)) = none := by
        have hb : ((lower u2.email) == (lower u1.email)) = false := by
          simp only [beq_eq_false_iff_ne, ne_eq]
          exact fun hx => hem hx.symm
        simp [List.lookup, hb]
      rw [merge_one_user_create gen hgen "b" _ u2 hmiss2]
      dsimp only
      refine ⟨?_, ?_, ?_⟩ <;>
        simp [mapsLookup, mapInsert, List.lookup,
          show (("a" == "b") : Bool) = false from rfl,
          show (("b" == "a") : Bool) = false from rfl]

/-- C4 witness: two same-named departments from the two sources produce
one target row with both maps pointing at it; two users with the same
email merge into one target user; two users with distinct emails stay
two. -/
theorem natural_key_dedup_witness :
    (merge_departments ["a", "b"]
        (fun c => if c == "a" then [⟨1, "Sport"⟩] else [⟨2, "Sport"⟩]) [] 1).rows.length = 1 ∧
    (merge_users (fun k => String.mk (List.replicate k 'z'))
        (fun un us => exists_fresh_randomCandidate un us) ["a", "b"]
        (fun c => if c == "a" then [⟨1, "u1", "ann@x", "", "", true, false, false, 0⟩]
          else [⟨2, "u2", "ann@x", "", "", true, false, false, 0⟩]) [] 1).usersByEmail.length
      = 1 ∧
    (merge_users (fun k => String.mk (List.replicate k 'z'))
        (fun un us => exists_fresh_randomCandidate un us) ["a", "b"]
        (fun c => if c == "a" then [⟨1, "u1", "ann@x", "", "", true, false, false, 0⟩]
          else [⟨2, "u2", "bob@x", "", "", true, false, false, 0⟩]) [] 1).usersByEmail.length
      = 2 := by
  refine ⟨?_, ?_, ?_⟩
  · exact (((natural_key_dedup ⟨1, "Sport"⟩ ⟨2, "Sport"⟩
      ⟨1, "u1", "ann@x", "", "", true, false, false, 0⟩
      ⟨2, "u2", "ann@x", "", "", true, false, false, 0⟩
      (fun k => String.mk (List.replicate k 'z'))
      (fun un us => exists_fresh_randomCandidate un us)).1 _ rfl).1 rfl).1
  · exact (((natural_key_dedup ⟨1, "Sport"⟩ ⟨2, "Sport"⟩
      ⟨1, "u1", "ann@x", "", "", true, false, false, 0⟩
      ⟨2, "u2", "ann@x", "", "", true, false, false, 0⟩
      (fun k => String.mk (List.replicate k 'z'))
      (fun un us => exists_fresh_randomCandidate un us)).2 _ rfl).1 rfl).1
  · exact (((natural_key_dedup ⟨1, "Sport"⟩ ⟨2, "Sport"⟩
      ⟨1, "u1", "ann@x", "", "", true, false, false, 0⟩
      ⟨2, "u2", "bob@x", "", "", true, false, false, 0⟩
      (fun k => String.mk (List.replicate k 'z'))
      (fun un us => exists_fresh_randomCandidate un us)).2 _ rfl).2 (by decide)).1
